import Mathlib

/-!
Verification of the blackjack game engine in `src/commands/blackjack.ts`.

The TypeScript classes `Card`, `HandSum`, `Hand`, `Dealer`, `Player` and
`Blackjack` are embedded as Lean structures and functions.  Mutation is
modelled by returning updated values; the random shoe (`Card.fromRandom`)
is modelled as an infinite supply `Deck : Nat → Card` together with an
index of the next card to draw; the asynchronous move acquisition
(`Player.move`) is modelled as a list of `Option Move` values, where
`none` stands for a timeout of the message collector (in which case the
promise never resolves and the collector's end handler edits the prompt
to the inactivity notice).  `Move.INVALID` is not modelled because the
collector filter never resolves the promise with it.  Display calls are
modelled as an `Event` trace recording the game-relevant messages.
-/

/-- Enum `Suit` has numeric members CLUBS..SPADES = 0..3; only the numeric
value matters to the engine, so suits are embedded as `Nat`.  Likewise enum
`Rank` has ACE = 0, _2.._10 = 1..9, JACK = 10, QUEEN = 11, KING = 12. -/
structure Card where
  suit : Nat
  rank : Nat
  down : Bool
deriving DecidableEq, Repr

instance : Inhabited Card := ⟨⟨0, 0, false⟩⟩

/-- `PERFECT = 21` from the source. -/
def PERFECT : Nat := 21

/-- `Card.value()`: ranks from `Rank._10` (numeric value 9) upward are worth
10, otherwise `rank + 1`. -/
def Card.value (c : Card) : Nat :=
  if 9 ≤ c.rank then 10 else c.rank + 1

/-- The infinite shoe: `Card.fromRandom` draws suit and rank independently;
we abstract the PRNG as an arbitrary infinite card sequence. -/
abbrev Deck := Nat → Card

/-- `Card.fromRandom()` with `down` undefined: the drawn card is face up. -/
def drawUp (deck : Deck) (i : Nat) : Card :=
  { deck i with down := false }

/-- `Card.fromRandom(true)`: the drawn card is face down. -/
def drawDown (deck : Deck) (i : Nat) : Card :=
  { deck i with down := true }

/-- Class `HandSum { sum, soft }`. -/
structure HandSum where
  sum : Nat
  soft : Bool
deriving DecidableEq, Repr

instance : Inhabited HandSum := ⟨⟨0, false⟩⟩

/-- `HandSum.fromCards`: raw sum of card values, with one ace promoted by 10
when some ace is present and promotion stays within `PERFECT`. -/
def HandSum.fromCards (cards : List Card) : HandSum :=
  let rawSum := cards.foldl (fun sum card => sum + card.value) 0
  if cards.any (fun card => card.rank == 0) then
    if rawSum + 10 ≤ PERFECT then ⟨rawSum + 10, true⟩ else ⟨rawSum, false⟩
  else
    ⟨rawSum, false⟩

/-- `HandSum.hit(card)`: incremental update; an ace is counted as 11 when it
fits, and a soft total that overflows `PERFECT` drops the ace back to 1. -/
def HandSum.hit (hs : HandSum) (card : Card) : HandSum :=
  let hs1 : HandSum :=
    if card.rank = 0 ∧ hs.sum + 11 ≤ PERFECT then ⟨hs.sum + 11, true⟩
    else ⟨hs.sum + card.value, hs.soft⟩
  if hs1.soft ∧ hs1.sum > PERFECT then ⟨hs1.sum - 10, false⟩ else hs1

/-- `HandSum.bust()`. -/
def HandSum.bust (hs : HandSum) : Bool :=
  decide (hs.sum > PERFECT)

/-- Enum `Status` for a hand. -/
inductive Status
  | BLACKJACK
  | WAIT
  | CURRENT
  | SURRENDER
  | BUST
  | STAND
  | DOUBLE
deriving DecidableEq, Repr

/-- Enum `Result` of comparing a hand against the dealer. -/
inductive Result
  | LOSE
  | TIE
  | WIN
deriving DecidableEq, Repr

/-- Enum `Move`, without `INVALID`: the collector in `Player.move` never
resolves the promise with an invalid token. -/
inductive Move
  | HIT
  | STAND
  | DOUBLE
  | SPLIT
  | SURRENDER
deriving DecidableEq, Repr

/-- Class `Hand { cards, handSum, status }`. -/
structure Hand where
  cards : List Card
  handSum : HandSum
  status : Status
deriving DecidableEq, Repr

instance : Inhabited Hand := ⟨⟨[], ⟨0, false⟩, Status.WAIT⟩⟩

/-- The `Hand` constructor: computes `handSum` from the cards and assigns
`BLACKJACK` when `handSum.sum == PERFECT && cards.length <= 2`, else `WAIT`. -/
def Hand.make (cards : List Card) : Hand :=
  let hs := HandSum.fromCards cards
  { cards := cards, handSum := hs,
    status := if hs.sum = PERFECT ∧ cards.length ≤ 2 then Status.BLACKJACK else Status.WAIT }

/-- `Hand.hit(card)`: push the card and update the sum incrementally. -/
def Hand.hit (h : Hand) (card : Card) : Hand :=
  { h with cards := h.cards ++ [card], handSum := h.handSum.hit card }

/-- `Hand.bust()`. -/
def Hand.bust (h : Hand) : Bool :=
  h.handSum.bust

/-- `Hand.blackjack()`. -/
def Hand.blackjack (h : Hand) : Bool :=
  decide (h.handSum.sum = PERFECT ∧ h.cards.length ≤ 2)

/-- `Hand.compare(hand)`: higher sum wins; on a tie at `PERFECT`, a hand of
at most two cards beats a longer one. -/
def Hand.compare (h other : Hand) : Result :=
  if h.handSum.sum > other.handSum.sum then Result.WIN
  else if h.handSum.sum < other.handSum.sum then Result.LOSE
  else if h.handSum.sum ≠ PERFECT then Result.TIE
  else if h.cards.length ≤ 2 ∧ ¬ other.cards.length ≤ 2 then Result.WIN
  else if ¬ h.cards.length ≤ 2 ∧ other.cards.length ≤ 2 then Result.LOSE
  else Result.TIE

/-- Class `Dealer extends Hand`, modelled by composition with the `hidden`
flag (initially `true`). -/
structure Dealer where
  hand : Hand
  hidden : Bool
deriving DecidableEq, Repr

instance : Inhabited Dealer := ⟨⟨default, true⟩⟩

/-- `cards[1].down = false` performed by `Dealer.reveal`. -/
def revealSecond : List Card → List Card
  | c0 :: c1 :: rest => c0 :: { c1 with down := false } :: rest
  | cs => cs

/-- `Dealer.reveal()`: clear `hidden` and flip the second card face up. -/
def Dealer.reveal (dl : Dealer) : Dealer :=
  { dl with hidden := false, hand := { dl.hand with cards := revealSecond dl.hand.cards } }

/-- Class `Player`: the user identity plays no role in the engine, so a
player is just an ordered list of hands. -/
structure Player where
  hands : List Hand
deriving DecidableEq, Repr

instance : Inhabited Player := ⟨⟨[]⟩⟩

/-- Game-relevant display messages and interaction points of `runGame`, in
order of occurrence.  `moveRequest` marks each call of `player.move()`;
`inactivity` is the prompt edit `Ended due to inactivity.` performed by the
collector's end handler on timeout; `dealerNatural`, `dealerBust` and
`result` carry the `Result` conveyed to the user by the corresponding
messages. -/
inductive Event
  | dealerNatural (r : Result)
  | moveRequest
  | inactivity
  | reject21
  | drew (c : Card)
  | bust (c : Card)
  | doubleDrew (c : Card)
  | doubleBust (c : Card)
  | splitRejectLen
  | splitRejectVal
  | didSplit (c1 c2 : Card)
  | surrenderReject
  | surrendered
  | reveal (c : Card)
  | dealerDrew (c : Card)
  | dealerBust (c : Card)
  | result (r : Result)
deriving DecidableEq, Repr

/-- Is this event the inactivity notification? -/
def Event.isInactivity : Event → Bool
  | .inactivity => true
  | _ => false

/-- Does this event convey a `Result` (win/tie/loss) to the user? -/
def Event.isResult : Event → Bool
  | .dealerNatural _ => true
  | .dealerBust _ => true
  | .result _ => true
  | _ => false

/-- Is this event a move acquisition? -/
def Event.isMoveRequest : Event → Bool
  | .moveRequest => true
  | _ => false

/-- `player.hands.splice(i, 0, a)`: insert `a` at index `i`. -/
def listInsertAt (l : List α) (i : Nat) (a : α) : List α :=
  l.take i ++ a :: l.drop i

/-- Result of processing one acquired move in the per-hand `while` loop of
`Blackjack.runGame` (`ends = true` means `break hand`). -/
structure StepRes where
  hands : List Hand
  d : Nat
  events : List Event
  ends : Bool
deriving DecidableEq, Repr

/-- One iteration of the per-hand turn loop body after `player.move()`
returned `mv` (lines 366-423 of the source): the `PERFECT` guard, then the
`switch` over the move. -/
def handStep (hands : List Hand) (h : Nat) (deck : Deck) (d : Nat) (mv : Move) : StepRes :=
  let hand := hands.getD h default
  if hand.handSum.sum = PERFECT ∧ mv ≠ Move.STAND then
    ⟨hands, d, [Event.reject21], false⟩
  else
    match mv with
    | Move.HIT =>
      let card := drawUp deck d
      let hand' := hand.hit card
      if hand'.bust then ⟨hands.set h hand', d + 1, [Event.bust card], true⟩
      else ⟨hands.set h hand', d + 1, [Event.drew card], false⟩
    | Move.STAND =>
      ⟨hands.set h { hand with status := Status.STAND }, d, [], true⟩
    | Move.DOUBLE =>
      let card := drawUp deck d
      let hand' := hand.hit card
      if hand'.bust then ⟨hands.set h hand', d + 1, [Event.doubleBust card], true⟩
      else ⟨hands.set h { hand' with status := Status.SURRENDER }, d + 1,
        [Event.doubleDrew card], true⟩
    | Move.SPLIT =>
      if hand.cards.length > 2 then ⟨hands, d, [Event.splitRejectLen], false⟩
      else if (hand.cards.getD 0 default).value ≠ (hand.cards.getD 1 default).value then
        ⟨hands, d, [Event.splitRejectVal], false⟩
      else
        let popped := hand.cards.getLastD default
        let remaining := hand.cards.dropLast
        let newHand := Hand.make [popped]
        let hand1 := { hand with cards := remaining, handSum := HandSum.fromCards remaining }
        let c1 := drawUp deck d
        let c2 := drawUp deck (d + 1)
        ⟨listInsertAt (hands.set h (hand1.hit c1)) (h + 1) (newHand.hit c2), d + 2,
          [Event.didSplit c1 c2], false⟩
    | Move.SURRENDER =>
      if hand.cards.length > 2 then ⟨hands, d, [Event.surrenderReject], false⟩
      else ⟨hands.set h { hand with status := Status.SURRENDER }, d,
        [Event.surrendered], true⟩

/-- Result of a player-phase loop: updated hands, next draw index, remaining
move supply, emitted events, and whether the round was aborted by a
timeout during move acquisition. -/
structure TurnRes where
  hands : List Hand
  d : Nat
  moves : List (Option Move)
  events : List Event
  aborted : Bool
deriving DecidableEq, Repr

/-- The labelled `hand: while (true)` loop: acquire a move (consuming one
entry of the supply; `none` or an exhausted supply is a timeout, on which
the promise never resolves and the round stops) and process it with
`handStep` until the turn ends. -/
def handTurn : List Hand → Nat → Deck → Nat → List (Option Move) → TurnRes
  | hands, _, _, d, [] => ⟨hands, d, [], [Event.moveRequest, Event.inactivity], true⟩
  | hands, _, _, d, none :: rest => ⟨hands, d, rest, [Event.moveRequest, Event.inactivity], true⟩
  | hands, h, deck, d, some mv :: rest =>
    let s := handStep hands h deck d mv
    if s.ends then ⟨s.hands, s.d, rest, Event.moveRequest :: s.events, false⟩
    else
      let r := handTurn s.hands h deck s.d rest
      ⟨r.hands, r.d, r.moves, Event.moveRequest :: s.events ++ r.events, r.aborted⟩

/-- `handTurn` consumes at least one move unless it aborts. -/
theorem handTurn_moves_lt (hands : List Hand) (h : Nat) (deck : Deck) (d : Nat)
    (moves : List (Option Move)) (hab : (handTurn hands h deck d moves).aborted = false) :
    (handTurn hands h deck d moves).moves.length < moves.length := by
  induction moves generalizing hands d with
  | nil => simp [handTurn] at hab
  | cons m rest ih =>
    cases m with
    | none => simp [handTurn] at hab
    | some mv =>
      simp only [handTurn] at hab ⊢
      by_cases hse : (handStep hands h deck d mv).ends = true
      · rw [if_pos hse]
        simp
      · rw [if_neg hse] at hab ⊢
        simp only [List.length_cons]
        simp only at hab
        exact Nat.lt_succ_of_lt (ih _ _ hab)

/-- The `for (let h = 0; h < player.hands.length; ++h)` loop over a
player's (possibly growing) list of hands: set the current hand's status to
`CURRENT`, run its turn, and continue with the next hand unless aborted. -/
def playerHandsLoop (hands : List Hand) (h : Nat) (deck : Deck) (d : Nat)
    (moves : List (Option Move)) : TurnRes :=
  if h < hands.length then
    if hab : (handTurn (hands.set h { hands.getD h default with status := Status.CURRENT })
        h deck d moves).aborted then
      handTurn (hands.set h { hands.getD h default with status := Status.CURRENT }) h deck d moves
    else
      let r := handTurn (hands.set h { hands.getD h default with status := Status.CURRENT })
        h deck d moves
      let r2 := playerHandsLoop r.hands (h + 1) deck r.d r.moves
      ⟨r2.hands, r2.d, r2.moves, r.events ++ r2.events, r2.aborted⟩
  else ⟨hands, d, moves, [], false⟩
termination_by moves.length
decreasing_by
  exact handTurn_moves_lt _ _ _ _ _ (by simpa using hab)

/-- Result of the whole player phase. -/
structure PhaseRes where
  players : List Player
  d : Nat
  moves : List (Option Move)
  events : List Event
  aborted : Bool
deriving DecidableEq, Repr

/-- The `for (const player of this.players)` loop. -/
def playersLoop (deck : Deck) : List Player → Nat → List (Option Move) → PhaseRes
  | [], d, moves => ⟨[], d, moves, [], false⟩
  | pl :: rest, d, moves =>
    let r := playerHandsLoop pl.hands 0 deck d moves
    if r.aborted then ⟨Player.mk r.hands :: rest, r.d, r.moves, r.events, true⟩
    else
      let r2 := playersLoop deck rest r.d r.moves
      ⟨Player.mk r.hands :: r2.players, r2.d, r2.moves, r.events ++ r2.events, r2.aborted⟩

/-- `Blackjack.dealerMove()` (without the presentation delay): hit below 17
and on soft 17, stand otherwise. -/
def dealerMove (hs : HandSum) : Move :=
  if hs.sum < 17 ∨ (hs.sum = 17 ∧ hs.soft = true) then Move.HIT else Move.STAND

/-- `dealerMove hs = HIT` exactly under the policy condition. -/
theorem dealerMove_hit_iff (hs : HandSum) :
    dealerMove hs = Move.HIT ↔ (hs.sum < 17 ∨ (hs.sum = 17 ∧ hs.soft = true)) := by
  unfold dealerMove
  split <;> simp_all

/-- Termination measure for the dealer's drawing loop. -/
def dealerFuel (hs : HandSum) : Nat :=
  (22 - hs.sum) + (if hs.soft then 10 else 0)

/-- Each hit taken under the dealer policy strictly decreases `dealerFuel`. -/
theorem dealerFuel_hit_lt (hs : HandSum) (c : Card)
    (hp : hs.sum < 17 ∨ (hs.sum = 17 ∧ hs.soft = true)) :
    dealerFuel (hs.hit c) < dealerFuel hs := by
  have hv : 1 ≤ c.value ∧ c.value ≤ 10 := by
    unfold Card.value; split <;> omega
  unfold dealerFuel HandSum.hit PERFECT
  rcases hs with ⟨s, f⟩
  simp only [PERFECT] at hp ⊢
  split <;> rename_i h1 <;> split <;> rename_i h2 <;> cases f <;> simp_all <;> omega

/-- Result of the dealer's drawing loop. -/
structure DealerRes where
  dealer : Dealer
  d : Nat
  events : List Event
  busted : Bool
deriving DecidableEq, Repr

/-- The labelled `dealer: while (true)` loop of `runGame` (lines 431-453):
consult `dealerMove`; on `HIT` draw, exiting with status `BUST` when the sum
exceeds `PERFECT`; on `STAND` exit with status `STAND`. -/
def dealerLoop (dl : Dealer) (deck : Deck) (d : Nat) : DealerRes :=
  if hmove : dealerMove dl.hand.handSum = Move.HIT then
    let card := drawUp deck d
    let hand' := dl.hand.hit card
    if hand'.handSum.sum > PERFECT then
      ⟨{ dl with hand := { hand' with status := Status.BUST } }, d + 1,
        [Event.dealerBust card], true⟩
    else
      let r := dealerLoop { dl with hand := hand' } deck (d + 1)
      ⟨r.dealer, r.d, Event.dealerDrew card :: r.events, r.busted⟩
  else
    ⟨{ dl with hand := { dl.hand with status := Status.STAND } }, d, [], false⟩
termination_by dealerFuel dl.hand.handSum
decreasing_by
  exact dealerFuel_hit_lt _ _ ((dealerMove_hit_iff _).mp hmove)

/-- `Player.deal` for each user, in order: two face-up cards per player. -/
def dealPlayers (deck : Deck) : Nat → Nat → List Player × Nat
  | 0, d => ([], d)
  | n + 1, d =>
    let pl := Player.mk [Hand.make [drawUp deck d, drawUp deck (d + 1)]]
    let (rest, d') := dealPlayers deck n (d + 2)
    (pl :: rest, d')

/-- Final outcome of a round: `completed` when `runGame` returns normally,
`terminated` when a move-acquisition timeout stops the round (the promise
returned by `Player.move` never resolves, so no further statement of
`runGame` runs and nothing is thrown). -/
inductive Outcome
  | completed
  | terminated
deriving DecidableEq, Repr

/-- Final state of a round. -/
structure RunRes where
  players : List Player
  dealer : Dealer
  events : List Event
  outcome : Outcome
deriving DecidableEq, Repr

/-- `Blackjack.runGame()` for `n` users, drawing from `deck` and acquiring
moves from `moves`: deal the players then the dealer (one card face up, one
face down); on a dealer natural reveal and settle immediately against
`players[0].hands[0]`; otherwise run every player's hands, then the
dealer's turn (set `CURRENT`, reveal, policy loop), returning early on a
dealer bust, else compare `players[0].hands[0]` against the dealer. -/
def runGame (n : Nat) (deck : Deck) (moves : List (Option Move)) : RunRes :=
  let dealt := dealPlayers deck n 0
  let players := dealt.1
  let d0 := dealt.2
  let dealer : Dealer := ⟨Hand.make [drawUp deck d0, drawDown deck (d0 + 1)], true⟩
  if dealer.hand.handSum.sum = PERFECT then
    let r := if ((players.getD 0 default).hands.getD 0 default).handSum.sum = PERFECT
      then Result.TIE else Result.LOSE
    ⟨players, dealer.reveal, [Event.dealerNatural r], Outcome.completed⟩
  else
    let pr := playersLoop deck players (d0 + 2) moves
    if pr.aborted then ⟨pr.players, dealer, pr.events, Outcome.terminated⟩
    else
      let dealer1 : Dealer := { dealer with hand := { dealer.hand with status := Status.CURRENT } }
      let dealer2 := dealer1.reveal
      let revealed := dealer2.hand.cards.getD 1 default
      let dl := dealerLoop dealer2 deck pr.d
      if dl.busted then
        ⟨pr.players, dl.dealer, pr.events ++ Event.reveal revealed :: dl.events,
          Outcome.completed⟩
      else
        let res := ((pr.players.getD 0 default).hands.getD 0 default).compare dl.dealer.hand
        ⟨pr.players, dl.dealer,
          pr.events ++ Event.reveal revealed :: dl.events ++ [Event.result res],
          Outcome.completed⟩

/-- A finite prefix of the shoe for concrete rounds (cards beyond the
prefix default to the ace of clubs, never reached in the runs below). -/
def deckOf (l : List Card) : Deck := fun i => l.getD i default

/-- ♣A. -/
def cardA : Card := ⟨0, 0, false⟩

/-- ♣4. -/
def card4 : Card := ⟨0, 3, false⟩

/-- ♣5. -/
def card5 : Card := ⟨0, 4, false⟩

/-- ♣8. -/
def card8 : Card := ⟨0, 7, false⟩

/-- ♣9. -/
def card9 : Card := ⟨0, 8, false⟩

/-- ♦9. -/
def card9d : Card := ⟨1, 8, false⟩

/-- ♣10. -/
def card10 : Card := ⟨0, 9, false⟩

/-- ♣Q. -/
def cardQ : Card := ⟨0, 11, false⟩

/-- ♦Q. -/
def cardQd : Card := ⟨1, 11, false⟩

/-- ♣K. -/
def cardK : Card := ⟨0, 12, false⟩

/-- Every card is worth at least 1 and at most 10. -/
theorem value_bounds (c : Card) : 1 ≤ c.value ∧ c.value ≤ 10 := by
  unfold Card.value
  split <;> omega

/-- An ace is worth exactly 1 before promotion. -/
theorem ace_value (c : Card) (hc : c.rank = 0) : c.value = 1 := by
  simp [Card.value, hc]

/-- The raw fold only grows from its initial accumulator. -/
theorem foldl_value_le (cards : List Card) (a : Nat) :
    a ≤ cards.foldl (fun sum card => sum + card.value) a := by
  induction cards generalizing a with
  | nil => exact Nat.le_refl a
  | cons c cs ih => exact Nat.le_trans (Nat.le_add_right a c.value) (ih (a + c.value))

/-- A hand containing an ace has raw sum at least 1. -/
theorem any_ace_foldl_pos (cards : List Card) (a : Nat)
    (hany : cards.any (fun card => card.rank == 0) = true) :
    a + 1 ≤ cards.foldl (fun sum card => sum + card.value) a := by
  induction cards generalizing a with
  | nil => simp at hany
  | cons c cs ih =>
    simp only [List.any_cons, Bool.or_eq_true] at hany
    rcases hany with hc | hcs
    · have h1 : a + 1 ≤ a + c.value := by
        have := (value_bounds c).1
        omega
      exact Nat.le_trans h1 (foldl_value_le cs (a + c.value))
    · have h := ih (a + c.value) hcs
      simp only [List.foldl_cons]
      omega

/-- Claim C6: for every list of cards and every card appended to it, the
incremental update `HandSum.hit` applied to `HandSum.fromCards` of the
original list yields the same sum and soft flag as a full recompute
`HandSum.fromCards` of the extended list. -/
theorem hit_fromCards_append (cards : List Card) (card : Card) :
    (HandSum.fromCards cards).hit card = HandSum.fromCards (cards ++ [card]) := by
  have hv := value_bounds card
  unfold HandSum.fromCards HandSum.hit PERFECT
  simp only [List.foldl_append, List.foldl_cons, List.foldl_nil, List.any_append,
    List.any_cons, List.any_nil, Bool.or_false]
  by_cases hrk : card.rank = 0
  · rw [ace_value card hrk]
    cases hA : cards.any (fun c => c.rank == 0)
    · simp only [hA, hrk, beq_self_eq_true, Bool.false_or, Bool.false_eq_true, if_false,
        eq_self_iff_true, true_and, if_true]
      split_ifs <;> (try dsimp only at *) <;>
        (try simp only [HandSum.mk.injEq, Bool.false_eq_true, Bool.true_eq_false, false_and,
          and_false, true_and, and_true, not_true, not_false_iff] at *) <;>
        first | rfl | trivial | omega
    · have hpos := any_ace_foldl_pos cards 0 hA
      simp only [hA, hrk, beq_self_eq_true, Bool.true_or, eq_self_iff_true, true_and, if_true]
      split_ifs <;> (try dsimp only at *) <;>
        (try simp only [HandSum.mk.injEq, Bool.false_eq_true, Bool.true_eq_false, false_and,
          and_false, true_and, and_true, not_true, not_false_iff] at *) <;>
        first | rfl | trivial | omega
  · have hrk' : (card.rank == 0) = false := by simpa using hrk
    have handf : ∀ (p : Prop) [Decidable p], (card.rank = 0 ∧ p) = False := by
      intro p hp
      simp [hrk]
    cases hA : cards.any (fun c => c.rank == 0)
    · simp only [hA, hrk', Bool.or_false, Bool.false_or, Bool.false_eq_true, if_false, handf]
      split_ifs <;> (try dsimp only at *) <;>
        (try simp only [HandSum.mk.injEq, Bool.false_eq_true, Bool.true_eq_false, false_and,
          and_false, true_and, and_true, not_true, not_false_iff] at *) <;>
        first | rfl | trivial | omega
    · have hpos := any_ace_foldl_pos cards 0 hA
      simp only [hA, hrk', Bool.or_false, Bool.true_or, if_true, handf, if_false]
      split_ifs <;> (try dsimp only at *) <;>
        (try simp only [HandSum.mk.injEq, Bool.false_eq_true, Bool.true_eq_false, false_and,
          and_false, true_and, and_true, not_true, not_false_iff] at *) <;>
        first | rfl | trivial | omega

/-- Claim C7: `Hand.compare` returns `WIN` for the hand with the strictly
higher total and `LOSE` for the lower; on equal totals it returns `TIE`,
except when both totals equal 21, where a hand of at most 2 cards beats a
hand of more than 2 cards, and two naturals or two non-naturals tie. -/
theorem compare_correct (h other : Hand) :
    h.compare other =
      if other.handSum.sum < h.handSum.sum then Result.WIN
      else if h.handSum.sum < other.handSum.sum then Result.LOSE
      else if h.handSum.sum ≠ 21 then Result.TIE
      else if h.cards.length ≤ 2 ∧ 2 < other.cards.length then Result.WIN
      else if 2 < h.cards.length ∧ other.cards.length ≤ 2 then Result.LOSE
      else Result.TIE := by
  unfold Hand.compare PERFECT
  split_ifs <;> first | rfl | omega

/-- Claim C8: the dealer's policy is deterministic in its hand sum — it hits
exactly when the total is less than 17 or the total equals 17 and is soft,
and stands otherwise — and the dealer's turn loop ends only by standing
(policy says `STAND`) or by busting (total greater than 21). -/
theorem dealer_policy_correct (hs : HandSum) (dl : Dealer) (deck : Deck) (d : Nat) :
    (dealerMove hs = Move.HIT ↔ (hs.sum < 17 ∨ (hs.sum = 17 ∧ hs.soft = true))) ∧
    (((dealerLoop dl deck d).busted = false ∧
        (dealerLoop dl deck d).dealer.hand.status = Status.STAND ∧
        dealerMove (dealerLoop dl deck d).dealer.hand.handSum = Move.STAND) ∨
     ((dealerLoop dl deck d).busted = true ∧
        (dealerLoop dl deck d).dealer.hand.status = Status.BUST ∧
        PERFECT < (dealerLoop dl deck d).dealer.hand.handSum.sum)) := by
  refine ⟨dealerMove_hit_iff hs, ?_⟩
  induction dl, deck, d using dealerLoop.induct with
  | case1 dl deck d hmove card hand' hbust =>
    right
    rw [dealerLoop]
    simp [hmove, hbust]
  | case2 dl deck d hmove card hand' hbust ih =>
    rw [dealerLoop]
    simp only [hmove, dif_pos]
    simpa [hbust] using ih
  | case3 dl deck d hmove =>
    left
    rw [dealerLoop]
    rw [dif_neg hmove]
    refine ⟨rfl, rfl, ?_⟩
    dsimp only
    unfold dealerMove at hmove ⊢
    split_ifs at hmove ⊢ <;> simp_all

/-- Two cards of equal point value can never sum to `PERFECT`: an equal-value
pair is either two aces (soft 12) or an even hard total. -/
theorem fromCards_pair_ne_perfect (a b : Card) (hv : a.value = b.value) :
    (HandSum.fromCards [a, b]).sum ≠ PERFECT := by
  have ha := value_bounds a
  have hb := value_bounds b
  unfold HandSum.fromCards PERFECT
  simp only [List.foldl_cons, List.foldl_nil, List.any_cons, List.any_nil, Bool.or_false,
    Nat.zero_add]
  by_cases hra : a.rank = 0
  · have h1 := ace_value a hra
    simp only [hra, beq_self_eq_true, Bool.true_or, if_true]
    split_ifs <;> dsimp only <;> omega
  · have hra' : (a.rank == 0) = false := by simpa using hra
    by_cases hrb : b.rank = 0
    · have h1 := ace_value b hrb
      simp only [hra', hrb, beq_self_eq_true, Bool.false_or, if_true]
      split_ifs <;> dsimp only <;> omega
    · have hrb' : (b.rank == 0) = false := by simpa using hrb
      simp only [hra', hrb', Bool.or_self, Bool.false_eq_true, if_false]
      omega

/-- `splice(i, 0, a)` grows the hand list by exactly one. -/
theorem listInsertAt_length (l : List α) (i : Nat) (a : α) :
    (listInsertAt l i a).length = l.length + 1 := by
  simp [listInsertAt]
  omega

/-- Claim C9: a `SPLIT` move is accepted exactly when the current hand has
exactly 2 cards of equal point value under `value()` (the hypotheses state
the reachable-state invariants that the stored sum is the recompute of the
cards and that an in-turn hand holds at least two cards); acceptance
inserts one new hand and draws two cards, while a rejected split leaves the
hands and the draw position unchanged and the same hand's turn continues
(`ends = false`). -/
theorem split_accept_iff (hands : List Hand) (h : Nat) (deck : Deck) (d : Nat)
    (hinv : (hands.getD h default).handSum = HandSum.fromCards (hands.getD h default).cards)
    (hlen : 2 ≤ (hands.getD h default).cards.length) :
    ((hands.getD h default).cards.length = 2 ∧
        ((hands.getD h default).cards.getD 0 default).value
          = ((hands.getD h default).cards.getD 1 default).value →
      (handStep hands h deck d Move.SPLIT).hands.length = hands.length + 1 ∧
      (handStep hands h deck d Move.SPLIT).d = d + 2 ∧
      (handStep hands h deck d Move.SPLIT).ends = false) ∧
    (¬ ((hands.getD h default).cards.length = 2 ∧
        ((hands.getD h default).cards.getD 0 default).value
          = ((hands.getD h default).cards.getD 1 default).value) →
      (handStep hands h deck d Move.SPLIT).hands = hands ∧
      (handStep hands h deck d Move.SPLIT).d = d ∧
      (handStep hands h deck d Move.SPLIT).ends = false) := by
  constructor
  · rintro ⟨hl2, hveq⟩
    have hsum : ¬ ((hands.getD h default).handSum.sum = PERFECT ∧ Move.SPLIT ≠ Move.STAND) := by
      rintro ⟨hs21, -⟩
      obtain ⟨a, b, hab⟩ := List.length_eq_two.mp hl2
      rw [hinv, hab] at hs21
      have hveq2 : a.value = b.value := by
        have hcopy := hveq
        rw [hab] at hcopy
        simpa using hcopy
      exact fromCards_pair_ne_perfect a b hveq2 hs21
    unfold handStep
    rw [if_neg hsum]
    dsimp only
    rw [if_neg (by omega)]
    rw [if_neg (fun hne => hne hveq)]
    refine ⟨?_, rfl, rfl⟩
    dsimp only
    simp [listInsertAt_length]
  · intro hnot
    unfold handStep
    by_cases hg : (hands.getD h default).handSum.sum = PERFECT ∧ Move.SPLIT ≠ Move.STAND
    · rw [if_pos hg]
      exact ⟨rfl, rfl, rfl⟩
    · rw [if_neg hg]
      dsimp only
      by_cases hl2 : (hands.getD h default).cards.length > 2
      · rw [if_pos hl2]
        exact ⟨rfl, rfl, rfl⟩
      · rw [if_neg hl2]
        have hval : ((hands.getD h default).cards.getD 0 default).value
            ≠ ((hands.getD h default).cards.getD 1 default).value := by
          intro he
          exact hnot ⟨by omega, he⟩
        rw [if_pos hval]
        exact ⟨rfl, rfl, rfl⟩

/-- Witness for claim C9: a ♣10/♦Q pair (both value 10) splits into two
hands, while a ♣10/♦9 pair is rejected with no state change. -/
theorem split_accept_iff_witness :
    (Hand.make [card10, cardQd]).handSum
        = HandSum.fromCards (Hand.make [card10, cardQd]).cards ∧
    (handStep [Hand.make [card10, cardQd]] 0 (deckOf []) 0 Move.SPLIT).hands.length = 2 ∧
    (handStep [Hand.make [card10, card9d]] 0 (deckOf []) 0 Move.SPLIT).hands
      = [Hand.make [card10, card9d]] ∧
    (handStep [Hand.make [card10, card9d]] 0 (deckOf []) 0 Move.SPLIT).ends = false := by
  refine ⟨by decide, ?_, ?_, ?_⟩
  · exact (((split_accept_iff [Hand.make [card10, cardQd]] 0 (deckOf []) 0 (by decide)
      (by decide)).1 (by decide)).1).trans (by decide)
  · exact ((split_accept_iff [Hand.make [card10, card9d]] 0 (deckOf []) 0 (by decide)
      (by decide)).2 (by decide)).1
  · exact ((split_accept_iff [Hand.make [card10, card9d]] 0 (deckOf []) 0 (by decide)
      (by decide)).2 (by decide)).2.2

/-- Claim C4 (amended): a hand whose total is `PERFECT` — in particular one
whose status was set to `BLACKJACK` at construction — is not skipped: its
turn still runs, at least one move is requested for it, every event of the
turn is a move request or the best-sum rejection (so every move other than
`STAND` is rejected), and unless the round times out the turn ends with the
hand's status set to `STAND` and its cards unchanged. -/
theorem blackjack_hand_turn (hands : List Hand) (h : Nat) (deck : Deck) (d : Nat)
    (moves : List (Option Move))
    (hsum : (hands.getD h default).handSum.sum = PERFECT)
    (hab : (handTurn hands h deck d moves).aborted = false) :
    (handTurn hands h deck d moves).hands
      = hands.set h { hands.getD h default with status := Status.STAND } ∧
    1 ≤ (handTurn hands h deck d moves).events.countP Event.isMoveRequest ∧
    ∀ e ∈ (handTurn hands h deck d moves).events,
      e = Event.moveRequest ∨ e = Event.reject21 := by
  revert hab
  induction moves generalizing d with
  | nil =>
    intro hab
    simp [handTurn] at hab
  | cons m rest ih =>
    intro hab
    cases m with
    | none => simp [handTurn] at hab
    | some mv =>
      by_cases hmv : mv = Move.STAND
      · subst hmv
        have hstep : handStep hands h deck d Move.STAND
            = ⟨hands.set h { hands.getD h default with status := Status.STAND }, d, [],
               true⟩ := by
          unfold handStep
          rw [if_neg (by simp)]
        have hturn : handTurn hands h deck d (some Move.STAND :: rest)
            = ⟨hands.set h { hands.getD h default with status := Status.STAND }, d, rest,
               [Event.moveRequest], false⟩ := by
          simp [handTurn, hstep]
        rw [hturn]
        refine ⟨rfl, by simp [Event.isMoveRequest], ?_⟩
        intro e he
        simp only [List.mem_singleton] at he
        exact Or.inl he
      · have hstep : handStep hands h deck d mv = ⟨hands, d, [Event.reject21], false⟩ := by
          unfold handStep
          rw [if_pos ⟨hsum, hmv⟩]
        have hturn : handTurn hands h deck d (some mv :: rest)
            = ⟨(handTurn hands h deck d rest).hands, (handTurn hands h deck d rest).d,
               (handTurn hands h deck d rest).moves,
               Event.moveRequest :: Event.reject21 :: (handTurn hands h deck d rest).events,
               (handTurn hands h deck d rest).aborted⟩ := by
          simp [handTurn, hstep]
        rw [hturn] at hab ⊢
        simp only at hab
        obtain ⟨ih1, ih2, ih3⟩ := ih d hab
        refine ⟨ih1, by simp [Event.isMoveRequest], ?_⟩
        intro e he
        simp only [List.mem_cons] at he
        rcases he with rfl | rfl | he
        · exact Or.inl rfl
        · exact Or.inr rfl
        · exact ih3 e he

/-- Witness for claim C4 (amended): an ace-king blackjack hand played with a
single `STAND` ends with status `STAND`. -/
theorem blackjack_hand_turn_witness :
    (Hand.make [cardA, cardK]).handSum.sum = PERFECT ∧
    (handTurn [Hand.make [cardA, cardK]] 0 (deckOf []) 0 [some Move.STAND]).hands
      = [{ Hand.make [cardA, cardK] with status := Status.STAND }] := by
  refine ⟨by decide, ?_⟩
  exact (blackjack_hand_turn [Hand.make [cardA, cardK]] 0 (deckOf []) 0 [some Move.STAND]
    (by decide) (by decide)).1.trans (by decide)

/-- Counterexample to claim C4 as stated: in a full round, the hand dealt
♣A ♣K is assigned status `BLACKJACK` at construction, yet a move is
requested for it and its status ends up changed to `STAND`. -/
theorem blackjack_not_terminal_cex :
    (Hand.make [cardA, cardK]).status = Status.BLACKJACK ∧
    1 ≤ (runGame 1 (deckOf [cardA, cardK, card9, card9]) [some Move.STAND]).events.countP
        Event.isMoveRequest ∧
    (((runGame 1 (deckOf [cardA, cardK, card9, card9]) [some Move.STAND]).players.getD 0
        default).hands.getD 0 default).status = Status.STAND := by
  refine ⟨by decide, ?_, ?_⟩ <;>
    simp [runGame, dealPlayers, playersLoop, playerHandsLoop, handTurn, handStep,
      dealerLoop, Hand.make, HandSum.fromCards, Hand.hit, HandSum.hit, Hand.bust,
      HandSum.bust, Hand.compare, dealerMove, Dealer.reveal, revealSecond, drawUp,
      drawDown, deckOf, cardA, cardK, card9, PERFECT, Card.value, listInsertAt,
      Event.isMoveRequest]

/-- Claim C1 is false on the code: settlement computes a `Result` only for
`players[0].hands[0]` and via `Hand.compare` alone, ignoring the hand's
status.  In this round the only hand busts at 29 (the round reports the
loss at bust time), the dealer stands at 20, and settlement nevertheless
announces `WIN` for the busted hand, where the claim requires `LOSE`. -/
theorem settlement_bust_wins :
    (runGame 1 (deckOf [cardK, card9, cardK, cardQ, cardK]) [some Move.HIT]).events
      = [Event.moveRequest, Event.bust cardK, Event.reveal cardQ,
         Event.result Result.WIN] ∧
    (((runGame 1 (deckOf [cardK, card9, cardK, cardQ, cardK]) [some Move.HIT]).players.getD 0
        default).hands.getD 0 default).handSum.sum = 29 ∧
    (runGame 1 (deckOf [cardK, card9, cardK, cardQ, cardK])
        [some Move.HIT]).dealer.hand.handSum.sum = 20 := by
  refine ⟨?_, ?_, ?_⟩ <;>
    simp [runGame, dealPlayers, playersLoop, playerHandsLoop, handTurn, handStep,
      dealerLoop, Hand.make, HandSum.fromCards, Hand.hit, HandSum.hit, Hand.bust,
      HandSum.bust, Hand.compare, dealerMove, Dealer.reveal, revealSecond, drawUp,
      drawDown, deckOf, cardK, card9, cardQ, PERFECT, Card.value, listInsertAt]

/-- Claim C2 is false on the code: an accepted `DOUBLE` does draw exactly
one card and end the turn, but on a non-busting draw the code assigns
`Status.SURRENDER` (not `DOUBLE`; `Status.DOUBLE` is never assigned
anywhere), and on a busting draw it leaves the status `CURRENT` (not
`BUST`).  Evaluated here on a 9-total hand doubling to 17 and a 19-total
hand doubling to 29. -/
theorem double_status_surrender :
    handStep [{ Hand.make [card5, card4] with status := Status.CURRENT }] 0
        (fun _ => card8) 0 Move.DOUBLE
      = ⟨[{ cards := [card5, card4, card8], handSum := ⟨17, false⟩,
            status := Status.SURRENDER }], 1, [Event.doubleDrew card8], true⟩ ∧
    handStep [{ Hand.make [cardK, card9] with status := Status.CURRENT }] 0
        (fun _ => cardK) 0 Move.DOUBLE
      = ⟨[{ cards := [cardK, card9, cardK], handSum := ⟨29, false⟩,
            status := Status.CURRENT }], 1, [Event.doubleBust cardK], true⟩ := by
  decide

/-- Claim C3 is false on the code: a `HIT` that busts ends the hand's turn
but never assigns `Status.BUST` — the hand's status remains `CURRENT`
(the dealer's loop does assign `BUST` to the dealer, line 438, but the
participant path does not).  A non-busting `HIT` does continue the turn.
Evaluated on a ♣K ♣9 hand hitting a ♣K (bust, status stays `CURRENT`) and
hitting a ♣A (20, turn continues). -/
theorem hit_bust_keeps_current :
    handStep [{ Hand.make [cardK, card9] with status := Status.CURRENT }] 0
        (fun _ => cardK) 0 Move.HIT
      = ⟨[{ cards := [cardK, card9, cardK], handSum := ⟨29, false⟩,
            status := Status.CURRENT }], 1, [Event.bust cardK], true⟩ ∧
    handStep [{ Hand.make [cardK, card9] with status := Status.CURRENT }] 0
        (fun _ => cardA) 0 Move.HIT
      = ⟨[{ cards := [cardK, card9, cardA], handSum := ⟨20, false⟩,
            status := Status.CURRENT }], 1, [Event.drew cardA], false⟩ := by
  decide

/-- Claim C5 is false on the code for more than one participant: on a
dealer natural the round does reveal and end immediately with no turn
taken, but the single settlement message is computed from
`players[0].hands[0]` only.  Here player 2 holds a natural 21 yet the only
emitted result is the `LOSE` derived from player 1's 19; no `TIE` is ever
produced for player 2. -/
theorem dealer_natural_first_player_only :
    (runGame 2 (deckOf [cardK, card9, cardA, cardK, cardA, cardK]) []).events
      = [Event.dealerNatural Result.LOSE] ∧
    (((runGame 2 (deckOf [cardK, card9, cardA, cardK, cardA, cardK]) []).players.getD 1
        default).hands.getD 0 default).handSum.sum = PERFECT ∧
    (runGame 2 (deckOf [cardK, card9, cardA, cardK, cardA, cardK]) []).outcome
      = Outcome.completed := by
  decide

/-- Projection of `events` through a conditional step result. -/
theorem events_ite (c : Prop) [Decidable c] (a b : StepRes) :
    (if c then a else b).events = if c then a.events else b.events := by
  split <;> rfl

/-- `countP` through a conditional event list. -/
theorem countP_ite (p : Event → Bool) (c : Prop) [Decidable c] (l1 l2 : List Event) :
    (if c then l1 else l2).countP p = if c then l1.countP p else l2.countP p := by
  split <;> rfl

/-- A single processed move never emits an inactivity notice or a result. -/
theorem handStep_events (hands : List Hand) (h : Nat) (deck : Deck) (d : Nat) (mv : Move) :
    (handStep hands h deck d mv).events.countP Event.isInactivity = 0 ∧
    (handStep hands h deck d mv).events.countP Event.isResult = 0 := by
  unfold handStep
  cases mv <;>
    simp only [events_ite, countP_ite, List.countP_cons, List.countP_nil,
      Event.isInactivity, Event.isResult, ite_self, Nat.add_zero, Nat.zero_add,
      Bool.false_eq_true, if_false, ite_false] <;>
    simp

/-- A hand's turn emits the inactivity notice exactly when it aborts, and
never emits a result. -/
theorem handTurn_events (moves : List (Option Move)) :
    ∀ (hands : List Hand) (h : Nat) (deck : Deck) (d : Nat),
    (handTurn hands h deck d moves).events.countP Event.isInactivity
      = (if (handTurn hands h deck d moves).aborted then 1 else 0) ∧
    (handTurn hands h deck d moves).events.countP Event.isResult = 0 := by
  induction moves with
  | nil =>
    intro hands h deck d
    simp [handTurn, Event.isInactivity, Event.isResult]
  | cons m rest ih =>
    intro hands h deck d
    cases m with
    | none => simp [handTurn, Event.isInactivity, Event.isResult]
    | some mv =>
      simp only [handTurn]
      have hs := handStep_events hands h deck d mv
      by_cases hse : (handStep hands h deck d mv).ends = true
      · rw [if_pos hse]
        dsimp only
        simp [List.countP_cons, Event.isInactivity, Event.isResult, hs.1, hs.2]
      · rw [if_neg hse]
        dsimp only
        have ihr := ih (handStep hands h deck d mv).hands h deck (handStep hands h deck d mv).d
        simp [List.countP_cons, List.countP_append, Event.isInactivity, Event.isResult,
          hs.1, hs.2, ihr.1, ihr.2]

/-- Fuel-bounded form of `playerHandsLoop_events`. -/
theorem playerHandsLoop_events_aux (n : Nat) :
    ∀ (hands : List Hand) (h : Nat) (deck : Deck) (d : Nat) (moves : List (Option Move)),
    moves.length ≤ n →
    ((playerHandsLoop hands h deck d moves).events.countP Event.isInactivity
      = (if (playerHandsLoop hands h deck d moves).aborted then 1 else 0) ∧
    (playerHandsLoop hands h deck d moves).events.countP Event.isResult = 0) := by
  induction n with
  | zero =>
    intro hands h deck d moves hlen
    have hm : moves = [] := List.length_eq_zero.mp (Nat.le_zero.mp hlen)
    subst hm
    rw [playerHandsLoop]
    by_cases hlt : h < hands.length
    · rw [if_pos hlt, dif_pos (by simp [handTurn] :
        (handTurn (hands.set h { hands.getD h default with status := Status.CURRENT })
          h deck d ([] : List (Option Move))).aborted = true)]
      exact handTurn_events [] _ h deck d
    · rw [if_neg hlt]
      simp
  | succ n ihn =>
    intro hands h deck d moves hlen
    rw [playerHandsLoop]
    by_cases hlt : h < hands.length
    swap
    · rw [if_neg hlt]
      simp
    rw [if_pos hlt]
    by_cases hab : (handTurn
        (hands.set h { hands.getD h default with status := Status.CURRENT })
        h deck d moves).aborted = true
    · rw [dif_pos hab]
      exact handTurn_events moves _ h deck d
    · rw [dif_neg hab]
      have hab' : (handTurn
          (hands.set h { hands.getD h default with status := Status.CURRENT })
          h deck d moves).aborted = false := by
        simpa using hab
      have hlt2 := handTurn_moves_lt
        (hands.set h { hands.getD h default with status := Status.CURRENT }) h deck d moves hab'
      have ht := handTurn_events moves
        (hands.set h { hands.getD h default with status := Status.CURRENT }) h deck d
      have ihr := ihn
        (handTurn (hands.set h { hands.getD h default with status := Status.CURRENT })
          h deck d moves).hands
        (h + 1) deck
        (handTurn (hands.set h { hands.getD h default with status := Status.CURRENT })
          h deck d moves).d
        (handTurn (hands.set h { hands.getD h default with status := Status.CURRENT })
          h deck d moves).moves
        (by omega)
      dsimp only
      constructor
      · rw [List.countP_append, ht.1, ihr.1, hab']
        simp
      · rw [List.countP_append, ht.2, ihr.2]

/-- A player's hands loop emits the inactivity notice exactly when it
aborts, and never emits a result. -/
theorem playerHandsLoop_events (hands : List Hand) (h : Nat) (deck : Deck) (d : Nat)
    (moves : List (Option Move)) :
    (playerHandsLoop hands h deck d moves).events.countP Event.isInactivity
      = (if (playerHandsLoop hands h deck d moves).aborted then 1 else 0) ∧
    (playerHandsLoop hands h deck d moves).events.countP Event.isResult = 0 :=
  playerHandsLoop_events_aux moves.length hands h deck d moves (Nat.le_refl _)

/-- The player phase emits the inactivity notice exactly when it aborts,
and never emits a result. -/
theorem playersLoop_events (players : List Player) :
    ∀ (deck : Deck) (d : Nat) (moves : List (Option Move)),
    (playersLoop deck players d moves).events.countP Event.isInactivity
      = (if (playersLoop deck players d moves).aborted then 1 else 0) ∧
    (playersLoop deck players d moves).events.countP Event.isResult = 0 := by
  induction players with
  | nil =>
    intro deck d moves
    simp [playersLoop]
  | cons pl rest ih =>
    intro deck d moves
    have hp := playerHandsLoop_events pl.hands 0 deck d moves
    by_cases hab : (playerHandsLoop pl.hands 0 deck d moves).aborted = true
    · have hunfold : playersLoop deck (pl :: rest) d moves
          = ⟨Player.mk (playerHandsLoop pl.hands 0 deck d moves).hands :: rest,
             (playerHandsLoop pl.hands 0 deck d moves).d,
             (playerHandsLoop pl.hands 0 deck d moves).moves,
             (playerHandsLoop pl.hands 0 deck d moves).events, true⟩ := by
        simp only [playersLoop]
        rw [if_pos hab]
      rw [hunfold]
      dsimp only
      constructor
      · simp [hp.1, hab]
      · exact hp.2
    · have hab' : (playerHandsLoop pl.hands 0 deck d moves).aborted = false := by
        simpa using hab
      have hunfold : playersLoop deck (pl :: rest) d moves
          = ⟨Player.mk (playerHandsLoop pl.hands 0 deck d moves).hands ::
               (playersLoop deck rest (playerHandsLoop pl.hands 0 deck d moves).d
                 (playerHandsLoop pl.hands 0 deck d moves).moves).players,
             (playersLoop deck rest (playerHandsLoop pl.hands 0 deck d moves).d
               (playerHandsLoop pl.hands 0 deck d moves).moves).d,
             (playersLoop deck rest (playerHandsLoop pl.hands 0 deck d moves).d
               (playerHandsLoop pl.hands 0 deck d moves).moves).moves,
             (playerHandsLoop pl.hands 0 deck d moves).events ++
               (playersLoop deck rest (playerHandsLoop pl.hands 0 deck d moves).d
                 (playerHandsLoop pl.hands 0 deck d moves).moves).events,
             (playersLoop deck rest (playerHandsLoop pl.hands 0 deck d moves).d
               (playerHandsLoop pl.hands 0 deck d moves).moves).aborted⟩ := by
        simp only [playersLoop]
        rw [if_neg hab]
      rw [hunfold]
      dsimp only
      have ihr := ih deck (playerHandsLoop pl.hands 0 deck d moves).d
        (playerHandsLoop pl.hands 0 deck d moves).moves
      constructor
      · rw [List.countP_append, hp.1, ihr.1, hab']
        simp
      · rw [List.countP_append, hp.2, ihr.2]

/-- The dealer's drawing loop never emits an inactivity notice. -/
theorem dealerLoop_inactivity (dl : Dealer) (deck : Deck) (d : Nat) :
    (dealerLoop dl deck d).events.countP Event.isInactivity = 0 := by
  induction dl, deck, d using dealerLoop.induct with
  | case1 dl deck d hmove card hand' hbust =>
    rw [dealerLoop]
    simp [hmove, hbust, Event.isInactivity]
  | case2 dl deck d hmove card hand' hbust ih =>
    rw [dealerLoop]
    simp only [hmove, dif_pos]
    simp [hbust, List.countP_cons, Event.isInactivity, ih]
  | case3 dl deck d hmove =>
    rw [dealerLoop, dif_neg hmove]
    simp

/-- Claim C10: when move acquisition times out the round terminates early
(the unresolved promise stops `runGame`, which is reported as the
`terminated` outcome rather than an error): exactly one inactivity
notification is produced and no `Result` is conveyed for any remaining
hand; conversely a completed round never produces an inactivity
notification. -/
theorem inactivity_correct (n : Nat) (deck : Deck) (moves : List (Option Move)) :
    ((runGame n deck moves).outcome = Outcome.terminated →
       (runGame n deck moves).events.countP Event.isInactivity = 1 ∧
       (runGame n deck moves).events.countP Event.isResult = 0) ∧
    ((runGame n deck moves).outcome = Outcome.completed →
       (runGame n deck moves).events.countP Event.isInactivity = 0) := by
  simp only [runGame]
  have hpl := playersLoop_events (dealPlayers deck n 0).1 deck ((dealPlayers deck n 0).2 + 2)
    moves
  split_ifs with hnat hp21 hab hbust
  · constructor
    · intro hout
      simp at hout
    · intro hout
      simp [Event.isInactivity]
  · constructor
    · intro hout
      simp at hout
    · intro hout
      simp [Event.isInactivity]
  · constructor
    · intro hout
      dsimp only
      refine ⟨?_, hpl.2⟩
      rw [hpl.1, hab]
      simp
    · intro hout
      simp at hout
  · constructor
    · intro hout
      simp at hout
    · intro hout
      have hab' : (playersLoop deck (dealPlayers deck n 0).1 ((dealPlayers deck n 0).2 + 2)
          moves).aborted = false := by
        simpa using hab
      dsimp only
      simp only [List.countP_append, List.countP_cons, hpl.1, hab', dealerLoop_inactivity,
        Event.isInactivity, Bool.false_eq_true, if_false, ite_false]
  · constructor
    · intro hout
      simp at hout
    · intro hout
      have hab' : (playersLoop deck (dealPlayers deck n 0).1 ((dealPlayers deck n 0).2 + 2)
          moves).aborted = false := by
        simpa using hab
      dsimp only
      simp only [List.countP_append, List.countP_cons, List.countP_nil, hpl.1, hab',
        dealerLoop_inactivity, Event.isInactivity, Bool.false_eq_true, if_false, ite_false]

/-- Witness for claim C10: a round whose single move acquisition times out
terminates with exactly one inactivity notification and no results. -/
theorem inactivity_witness :
    (runGame 1 (deckOf [card9, card9, card9, card9]) [none]).outcome
      = Outcome.terminated ∧
    (runGame 1 (deckOf [card9, card9, card9, card9]) [none]).events.countP
      Event.isInactivity = 1 ∧
    (runGame 1 (deckOf [card9, card9, card9, card9]) [none]).events.countP
      Event.isResult = 0 := by
  have hterm : (runGame 1 (deckOf [card9, card9, card9, card9]) [none]).outcome
      = Outcome.terminated := by
    simp [runGame, dealPlayers, playersLoop, playerHandsLoop, handTurn, handStep,
      Hand.make, HandSum.fromCards, deckOf, card9, PERFECT, Card.value, drawUp, drawDown]
  exact ⟨hterm, (inactivity_correct 1 (deckOf [card9, card9, card9, card9]) [none]).1 hterm⟩
